import Mathlib

/-!
Verification development for the financial-statement chatbot repository.

Two leaf components are embedded from the source:

* the table normalizer of `chatbot_app.py` (`_clean_and_convert_to_numeric`
  and the per-table normalization loop of `save_tables_to_excel`), and
* the Markdown renderer of `src/utils/report_generator.py`
  (`generate_chat_transcript` and its helpers).

Conventions of the embedding:

* Python strings are modelled as `List Char` internally, `String` at the
  component boundary.
* Python `float` results are modelled exactly: a successful `float(s)`
  conversion is represented by the decimal value it denotes, as a pair
  mantissa/power-of-ten (`PyFloat.finite m e` stands for `m * 10 ^ e`),
  avoiding binary rounding.  `pyFloatVal` interprets the pair in `ℚ`.
* JSON-shaped Python values (the cells and rows an LLM response decodes to)
  are the inductive `PyVal`.
* Whitespace predicates model the ASCII part of Python's whitespace
  classes, which covers every input the claims quantify and exercise.
-/

/-- ASCII whitespace: the characters stripped by Python `str.strip()` and
matched by the regex class for whitespace, restricted to ASCII. -/
def isPySpace (c : Char) : Bool :=
  c = ' ' || c = '\t' || c = '\n' || c = '\r' || c = '\x0b' || c = '\x0c'

/-- Remove trailing characters satisfying `p`. -/
def dropTrailing (p : Char → Bool) (l : List Char) : List Char :=
  (l.reverse.dropWhile p).reverse

/-- Python `str.strip()` (ASCII whitespace). -/
def pyStrip (l : List Char) : List Char :=
  dropTrailing isPySpace (l.dropWhile isPySpace)

/-- Python `str.lower()` on the characters of a string (ASCII letters). -/
def toLowerAll (l : List Char) : List Char := l.map Char.toLower

/-- Decimal digit-run value, most significant digit first. -/
def digitsToNat (ds : List Char) : ℕ :=
  ds.foldl (fun a c => 10 * a + (c.toNat - 48)) 0

/-- Continue a digit run, allowing a single underscore between digits, as
Python numeric strings do.  Returns the digits read and the unread rest. -/
def takeDigitsGo : List Char → List Char → List Char × List Char
  | '_' :: c :: rest, acc =>
    if c.isDigit then takeDigitsGo rest (c :: acc) else (acc.reverse, '_' :: c :: rest)
  | c :: rest, acc =>
    if c.isDigit then takeDigitsGo rest (c :: acc) else (acc.reverse, c :: rest)
  | [], acc => (acc.reverse, [])

/-- Read a maximal digit run (single underscores allowed between digits)
from the front of `l`; empty when `l` does not start with a digit. -/
def takeDigits (l : List Char) : List Char × List Char :=
  match l with
  | c :: rest => if c.isDigit then takeDigitsGo rest [c] else ([], l)
  | [] => ([], [])

/-- An optional leading sign; `true` means negative. -/
def takeSign : List Char → Bool × List Char
  | '+' :: r => (false, r)
  | '-' :: r => (true, r)
  | l => (false, l)

/-- Result of a successful Python `float()` conversion, idealized exactly:
`finite m e` denotes the decimal value `m * 10 ^ e`. -/
inductive PyFloat where
  | finite (mant : ℤ) (exp10 : ℤ)
  | inf (neg : Bool)
  | nan
deriving DecidableEq

/-- The rational value of a finite `PyFloat`. -/
def pyFloatVal : PyFloat → Option ℚ
  | .finite m e => some ((m : ℚ) * 10 ^ e)
  | _ => none

/-- Optional exponent tail of a Python float literal: either the end of the
input, or `e`/`E`, an optional sign, and a digit run consuming the rest. -/
def parseExpPart (neg : Bool) (mant : ℤ) (fracLen : ℕ) (rest : List Char) : Option PyFloat :=
  match rest with
  | [] => some (.finite (if neg then -mant else mant) (-(fracLen : ℤ)))
  | c :: r =>
    if c = 'e' ∨ c = 'E' then
      let s := takeSign r
      let d := takeDigits s.2
      if d.1 = [] ∨ d.2 ≠ [] then none
      else
        let ev : ℤ := (digitsToNat d.1 : ℤ)
        some (.finite (if neg then -mant else mant)
          ((if s.1 then -ev else ev) - (fracLen : ℤ)))
    else none

/-- Mantissa part of a Python float literal: an integer digit run, an
optional point with a fractional digit run (at least one digit overall),
then the optional exponent. -/
def parsePyFloatBody (neg : Bool) (body : List Char) : Option PyFloat :=
  let ip := takeDigits body
  match ip.2 with
  | '.' :: r2 =>
    let fp := takeDigits r2
    if ip.1 = [] ∧ fp.1 = [] then none
    else parseExpPart neg ((digitsToNat ip.1 : ℤ) * 10 ^ fp.1.length + (digitsToNat fp.1 : ℤ))
      fp.1.length fp.2
  | _ =>
    if ip.1 = [] then none
    else parseExpPart neg (digitsToNat ip.1 : ℤ) 0 ip.2

/-- Python `float(s)` on a string, modelled exactly: strip whitespace, an
optional sign, then `inf`/`infinity`/`nan` (case-insensitive) or a decimal
literal with optional fraction and exponent. `none` is a `ValueError`. -/
def parsePyFloat (l : List Char) : Option PyFloat :=
  let t := pyStrip l
  let sb := takeSign t
  if toLowerAll sb.2 = "inf".data ∨ toLowerAll sb.2 = "infinity".data then some (.inf sb.1)
  else if toLowerAll sb.2 = "nan".data then some (.nan)
  else parsePyFloatBody sb.1 sb.2

/-- JSON-shaped Python values: what `json.loads` can produce for a table,
a row, or a cell. -/
inductive PyVal where
  | str (s : String)
  | float (f : PyFloat)
  | int (n : ℤ)
  | bool (b : Bool)
  | pynone
  | list (xs : List PyVal)
  | dict (kvs : List (String × PyVal))

/-- The text `_clean_and_convert_to_numeric` hands to `float()`: the
stripped value, parentheses turned into a leading minus sign, currency
symbols and commas removed. -/
def cleanedText (value : String) : List Char :=
  (if (pyStrip value.data).head? = some '(' ∧ (pyStrip value.data).getLast? = some ')' then
      '-' :: ((pyStrip value.data).drop 1).dropLast
    else pyStrip value.data).filter (fun c => !(c = '$' || c = ',' || c = '€'))

/-- String branch of `_clean_and_convert_to_numeric` (chatbot_app.py):
blank/`n/a`/`not applicable` become a blank cell, a lone accounting dash
becomes 0.0, otherwise the cleaned text is parsed as a float, and on
failure the original string is returned unchanged. -/
def cleanStr (value : String) : PyVal :=
  if pyStrip value.data = [] ∨ toLowerAll (pyStrip value.data) = "n/a".data ∨
      toLowerAll (pyStrip value.data) = "not applicable".data then
    .pynone
  else if pyStrip value.data = ['-'] ∨ pyStrip value.data = ['–'] ∨
      pyStrip value.data = ['—'] then
    .float (.finite 0 0)
  else
    match parsePyFloat (cleanedText value) with
    | some f => .float f
    | none => .str value

/-- `_clean_and_convert_to_numeric` (chatbot_app.py, lines 151-181):
non-string values pass through unchanged. -/
def cleanCell : PyVal → PyVal
  | .str s => cleanStr s
  | v => v

/-- Outcome of normalizing one raw table: either the table is skipped or a
cleaned header-plus-rows grid is produced. -/
inductive NormResult where
  | skip
  | table (header : List PyVal) (rows : List (List PyVal))

/-- `list(row) if isinstance(row, list) else []` of the source. -/
def rowAsList : PyVal → List PyVal
  | .list xs => xs
  | _ => []

/-- Width normalization of one data row against a header of width `h`:
longer rows are cut to their first `h` cells, shorter rows are padded on
the right with empty-string cells (save_tables_to_excel, lines 205-209). -/
def truncPadRow (h : ℕ) (row : PyVal) : List PyVal :=
  if (rowAsList row).length > h then (rowAsList row).take h
  else rowAsList row ++ List.replicate (h - (rowAsList row).length) (.str "")

/-- One data row of the normalization loop: width-normalize first, then
clean every cell (save_tables_to_excel, line 211). -/
def processRow (h : ℕ) (row : PyVal) : List PyVal :=
  (truncPadRow h row).map cleanCell

/-- Structural equality with the `[["Table Not Found"]]` sentinel. -/
def isSentinel : PyVal → Bool
  | .list [.list [.str s]] => s = "Table Not Found"
  | _ => false

/-- The per-table normalization of `save_tables_to_excel` (chatbot_app.py,
lines 189-216): skip non-lists, empty tables, tables whose first row is
not a list, the not-found sentinel, empty headers, and tables whose
processed row list is empty; otherwise keep the header and the processed
data rows. -/
def normalizeTable (tableData : PyVal) : NormResult :=
  match tableData with
  | .list (first :: dataRows) =>
    match first with
    | .list header =>
      if isSentinel (.list (first :: dataRows)) then .skip
      else if header.length = 0 then .skip
      else if (dataRows.map (processRow header.length)).isEmpty then .skip
      else .table header (dataRows.map (processRow header.length))
    | _ => .skip
  | _ => .skip

theorem normalizeTable_cons (hdr : List PyVal) (dataRows : List PyVal) :
    normalizeTable (.list (.list hdr :: dataRows)) =
      if isSentinel (.list (.list hdr :: dataRows)) then .skip
      else if hdr.length = 0 then .skip
      else if (dataRows.map (processRow hdr.length)).isEmpty then .skip
      else .table hdr (dataRows.map (processRow hdr.length)) := rfl

theorem truncPadRow_length (h : ℕ) (row : PyVal) : (truncPadRow h row).length = h := by
  unfold truncPadRow
  split
  · rename_i hgt
    simp only [List.length_take]
    omega
  · rename_i hle
    simp only [List.length_append, List.length_replicate]
    omega

/-- C1: `clean_cell` maps the concrete example inputs as specified, and
whenever the cleaned text fails the numeric parse (the blank and dash
branches not having fired), the original input string is returned, not
the intermediate cleaned text. -/
theorem clean_cell_spec :
    cleanCell (.str "$1,234.56") = .float (.finite 123456 (-2)) ∧
    pyFloatVal (.finite 123456 (-2)) = some 1234.56 ∧
    cleanCell (.str "(789)") = .float (.finite (-789) 0) ∧
    pyFloatVal (.finite (-789) 0) = some (-789) ∧
    cleanCell (.str "—") = .float (.finite 0 0) ∧
    pyFloatVal (.finite 0 0) = some 0 ∧
    cleanCell (.str "N/A") = .pynone ∧
    cleanCell (.str "FY2023") = .str "FY2023" ∧
    ∀ s : String,
      ¬(pyStrip s.data = [] ∨ toLowerAll (pyStrip s.data) = "n/a".data ∨
        toLowerAll (pyStrip s.data) = "not applicable".data) →
      ¬(pyStrip s.data = ['-'] ∨ pyStrip s.data = ['–'] ∨ pyStrip s.data = ['—']) →
      parsePyFloat (cleanedText s) = none →
      cleanCell (.str s) = .str s := by
  refine ⟨rfl, ?_, rfl, ?_, rfl, ?_, rfl, rfl, ?_⟩
  · unfold pyFloatVal; norm_num
  · unfold pyFloatVal; norm_num
  · unfold pyFloatVal; norm_num
  · intro s h1 h2 h3
    simp only [cleanCell, cleanStr, if_neg h1, if_neg h2, h3]

theorem clean_cell_spec_witness :
    ¬(pyStrip "FY24".data = [] ∨ toLowerAll (pyStrip "FY24".data) = "n/a".data ∨
      toLowerAll (pyStrip "FY24".data) = "not applicable".data) ∧
    ¬(pyStrip "FY24".data = ['-'] ∨ pyStrip "FY24".data = ['–'] ∨
      pyStrip "FY24".data = ['—']) ∧
    parsePyFloat (cleanedText "FY24") = none ∧
    cleanCell (.str "FY24") = .str "FY24" :=
  ⟨by decide, by decide, rfl,
    clean_cell_spec.2.2.2.2.2.2.2.2 "FY24" (by decide) (by decide) rfl⟩

/-- C2: every data row of a normalized table has exactly the header's
width, and each output row is `clean_cell` mapped over the
width-normalized input row, so normalization happens before cleaning. -/
theorem normalize_table_row_width :
    ∀ td header rows, normalizeTable td = .table header rows →
      (∀ row ∈ rows, row.length = header.length) ∧
      ∃ dataRows, td = PyVal.list (.list header :: dataRows) ∧
        rows = dataRows.map (fun r => (truncPadRow header.length r).map cleanCell) := by
  intro td header rows h
  match td with
  | .str _ => exact absurd h (by simp [normalizeTable])
  | .float _ => exact absurd h (by simp [normalizeTable])
  | .int _ => exact absurd h (by simp [normalizeTable])
  | .bool _ => exact absurd h (by simp [normalizeTable])
  | .pynone => exact absurd h (by simp [normalizeTable])
  | .dict _ => exact absurd h (by simp [normalizeTable])
  | .list [] => exact absurd h (by simp [normalizeTable])
  | .list (.str _ :: _) => exact absurd h (by simp [normalizeTable])
  | .list (.float _ :: _) => exact absurd h (by simp [normalizeTable])
  | .list (.int _ :: _) => exact absurd h (by simp [normalizeTable])
  | .list (.bool _ :: _) => exact absurd h (by simp [normalizeTable])
  | .list (.pynone :: _) => exact absurd h (by simp [normalizeTable])
  | .list (.dict _ :: _) => exact absurd h (by simp [normalizeTable])
  | .list (.list hdr :: dataRows) =>
    rw [normalizeTable_cons] at h
    split at h
    · exact absurd h (by simp)
    split at h
    · exact absurd h (by simp)
    split at h
    · exact absurd h (by simp)
    injection h with h1 h2
    subst h1
    subst h2
    constructor
    · intro row hrow
      rcases List.mem_map.mp hrow with ⟨r, _, rfl⟩
      simp [processRow, truncPadRow_length]
    · exact ⟨dataRows, rfl, by simp [processRow]⟩

theorem normalize_table_row_width_witness :
    normalizeTable (.list [.list [.str "A"], .list [.str "1", .str "2"]]) =
      .table [.str "A"] [[.float (.finite 1 0)]] ∧
    (∀ row ∈ [[PyVal.float (.finite 1 0)]], row.length = [PyVal.str "A"].length) ∧
    ∃ dataRows,
      PyVal.list [.list [.str "A"], .list [.str "1", .str "2"]] =
        PyVal.list (.list [.str "A"] :: dataRows) ∧
      [[PyVal.float (.finite 1 0)]] =
        dataRows.map (fun r => (truncPadRow [PyVal.str "A"].length r).map cleanCell) :=
  ⟨rfl, normalize_table_row_width
    (.list [.list [.str "A"], .list [.str "1", .str "2"]])
    [.str "A"] [[.float (.finite 1 0)]] rfl⟩

/-- C3 counterexample: the raw table `[["A"]]` satisfies the raw-table
invariant (it has a non-empty header row and is not the not-found
sentinel), yet `normalize_table` skips it, because a table with zero data
rows has an empty processed-row list. -/
theorem normalize_table_header_only_skipped :
    normalizeTable (.list [.list [.str "A"]]) = .skip ∧
    ([PyVal.str "A"] : List PyVal) ≠ [] ∧
    isSentinel (.list [.list [.str "A"]]) = false :=
  ⟨rfl, by simp, rfl⟩

/-- C3 amended: `normalize_table` returns Skip exactly when the raw table
violates the raw-table invariant (no header row, empty header row, or the
not-found sentinel) or has zero data rows; for every other raw table it
returns a cleaned table with exactly one output row per input data row. -/
theorem normalize_table_skip_iff :
    ∀ td : PyVal,
      ((normalizeTable td = .skip) ↔
        ¬∃ header dataRows, td = PyVal.list (.list header :: dataRows) ∧
          header ≠ [] ∧ isSentinel td = false ∧ dataRows ≠ []) ∧
      ∀ header rows, normalizeTable td = .table header rows →
        ∃ dataRows, td = PyVal.list (.list header :: dataRows) ∧
          rows.length = dataRows.length := by
  intro td
  constructor
  · constructor
    · intro hskip
      rintro ⟨header, dataRows, rfl, hne, hsent, hd⟩
      rw [normalizeTable_cons, if_neg (by simp [hsent]), if_neg (by simp [hne]),
        if_neg (by simp [List.isEmpty_iff, hd])] at hskip
      exact absurd hskip (by simp)
    · intro hno
      match td with
      | .str _ => rfl
      | .float _ => rfl
      | .int _ => rfl
      | .bool _ => rfl
      | .pynone => rfl
      | .dict _ => rfl
      | .list [] => rfl
      | .list (.str _ :: _) => rfl
      | .list (.float _ :: _) => rfl
      | .list (.int _ :: _) => rfl
      | .list (.bool _ :: _) => rfl
      | .list (.pynone :: _) => rfl
      | .list (.dict _ :: _) => rfl
      | .list (.list hdr :: dataRows) =>
        rw [normalizeTable_cons]
        by_cases hsent : isSentinel (.list (.list hdr :: dataRows)) = true
        · rw [if_pos hsent]
        · rw [if_neg hsent]
          by_cases hlen : hdr.length = 0
          · rw [if_pos hlen]
          · by_cases hd : dataRows = []
            · subst hd
              simp
            · exact absurd ⟨hdr, dataRows, rfl,
                fun hh => hlen (by simp [hh]),
                Bool.not_eq_true _ ▸ hsent, hd⟩ hno
  · intro header rows h
    match td with
    | .str _ => exact absurd h (by simp [normalizeTable])
    | .float _ => exact absurd h (by simp [normalizeTable])
    | .int _ => exact absurd h (by simp [normalizeTable])
    | .bool _ => exact absurd h (by simp [normalizeTable])
    | .pynone => exact absurd h (by simp [normalizeTable])
    | .dict _ => exact absurd h (by simp [normalizeTable])
    | .list [] => exact absurd h (by simp [normalizeTable])
    | .list (.str _ :: _) => exact absurd h (by simp [normalizeTable])
    | .list (.float _ :: _) => exact absurd h (by simp [normalizeTable])
    | .list (.int _ :: _) => exact absurd h (by simp [normalizeTable])
    | .list (.bool _ :: _) => exact absurd h (by simp [normalizeTable])
    | .list (.pynone :: _) => exact absurd h (by simp [normalizeTable])
    | .list (.dict _ :: _) => exact absurd h (by simp [normalizeTable])
    | .list (.list hdr :: dataRows) =>
      rw [normalizeTable_cons] at h
      split at h
      · exact absurd h (by simp)
      split at h
      · exact absurd h (by simp)
      split at h
      · exact absurd h (by simp)
      injection h with h1 h2
      subst h1
      exact ⟨dataRows, rfl, by simp [← h2]⟩

theorem normalize_table_skip_iff_witness :
    normalizeTable (.list [.list [.str "A"], .list []]) =
      .table [.str "A"] [[.pynone]] ∧
    ∃ dataRows,
      PyVal.list [.list [.str "A"], .list []] =
        PyVal.list (.list [.str "A"] :: dataRows) ∧
      ([[PyVal.pynone]] : List (List PyVal)).length = dataRows.length :=
  ⟨rfl, (normalize_table_skip_iff (.list [.list [.str "A"], .list []])).2
    [.str "A"] [[.pynone]] rfl⟩

/-! ## Markdown renderer (report_generator.py) -/

/-- The line boundaries recognized by Python `str.splitlines()`. -/
def isLineBreak (c : Char) : Bool :=
  c = '\n' || c = '\r' || c = '\x0b' || c = '\x0c' || c = '\x1c' || c = '\x1d' ||
  c = '\x1e' || c = '\x85' || c = '\u2028' || c = '\u2029'

/-- Worker for `pySplitlines`; `acc` holds the current line reversed. -/
def pySplitlinesGo : List Char → List Char → List (List Char)
  | [], acc => if acc.isEmpty then [] else [acc.reverse]
  | '\r' :: '\n' :: rest, acc => acc.reverse :: pySplitlinesGo rest []
  | c :: rest, acc =>
    if isLineBreak c then acc.reverse :: pySplitlinesGo rest []
    else pySplitlinesGo rest (c :: acc)

/-- Python `str.splitlines()`: no terminators kept, no trailing empty
line, carriage-return/newline pairs counted once. -/
def pySplitlines (l : List Char) : List (List Char) := pySplitlinesGo l []

/-- Python `split('|')` on the characters of a string. -/
def splitOnChar (sep : Char) : List Char → List (List Char)
  | [] => [[]]
  | c :: rest =>
    if c = sep then [] :: splitOnChar sep rest
    else
      match splitOnChar sep rest with
      | [] => [[c]]
      | p :: ps => (c :: p) :: ps

/-- Python `str.strip(x)` for a single character: remove every leading and
trailing occurrence. -/
def stripAllChar (x : Char) (l : List Char) : List Char :=
  ((l.dropWhile (fun c => c = x)).reverse.dropWhile (fun c => c = x)).reverse

/-- `_is_markdown_table_line`: the stripped line starts and ends with a
pipe (report_generator.py, lines 62-64). -/
def isTableLine (line : List Char) : Bool :=
  (pyStrip line).head? == some '|' && (pyStrip line).getLast? == some '|'

/-- Remove one optional leading colon. -/
def stripLeadColon (p : List Char) : List Char :=
  if p.head? == some ':' then p.tail else p

/-- Remove one optional leading and one optional trailing colon, as the
separator check does before testing for hyphens. -/
def stripColons (p : List Char) : List Char :=
  if (stripLeadColon p).getLast? == some ':' then (stripLeadColon p).dropLast
  else stripLeadColon p

/-- One separator cell is acceptable when empty, or when after removing
optional colons a non-empty run of hyphens remains. -/
def sepPartOk (p : List Char) : Bool :=
  p.isEmpty || (!(stripColons p).isEmpty && (stripColons p).all (fun c => c = '-'))

/-- `_is_markdown_table_separator` (report_generator.py, lines 66-89): a
pipe-delimited line with at least two pipes whose stripped cells all pass
`sepPartOk`. -/
def isSep (line : List Char) : Bool :=
  isTableLine (pyStrip line) && decide (2 ≤ (pyStrip line).count '|') &&
  !((splitOnChar '|' (stripAllChar '|' (pyStrip line))).map pyStrip).isEmpty &&
  ((splitOnChar '|' (stripAllChar '|' (pyStrip line))).map pyStrip).all sepPartOk

/-- `_parse_markdown_table_row`: strip the line, strip the outer pipes,
split on pipes, strip each cell (report_generator.py, lines 91-93). -/
def parseRow (line : List Char) : List String :=
  (splitOnChar '|' (stripAllChar '|' (pyStrip line))).map (fun c => String.mk (pyStrip c))

/-- Styling of one text run. -/
inductive SpanStyle where
  | plain
  | bold
  | italic
deriving DecidableEq

/-- One text run of a paragraph or list item. -/
structure Span where
  text : String
  style : SpanStyle
deriving DecidableEq

/-- Non-greedy close of a bold span: the shortest leading segment free of
newlines that is followed by two consecutive asterisks.  Returns that
segment and what follows the two closing asterisks. -/
def findClose2 : List Char → Option (List Char × List Char)
  | [] => none
  | c :: rest =>
    if c = '*' ∧ rest.head? = some '*' then some ([], rest.tail)
    else if c = '\n' then none
    else (findClose2 rest).map (fun pr => (c :: pr.1, pr.2))

/-- Non-greedy close of an italic span: the shortest leading segment free
of newlines that is followed by an asterisk. -/
def findClose1 : List Char → Option (List Char × List Char)
  | [] => none
  | c :: rest =>
    if c = '*' then some ([], rest)
    else if c = '\n' then none
    else (findClose1 rest).map (fun pr => (c :: pr.1, pr.2))

/-- One attempted match of the inline pattern at the current position: the
bold alternative is tried before the italic alternative, both non-greedy.
Returns the matched text (markers included) and the unread rest. -/
def tryMatchStar (l : List Char) : Option (List Char × List Char) :=
  if l.head? = some '*' ∧ l.tail.head? = some '*' then
    match findClose2 l.tail.tail with
    | some pr => some ('*' :: '*' :: (pr.1 ++ ['*', '*']), pr.2)
    | none =>
      match findClose1 l.tail with
      | some pr => some ('*' :: (pr.1 ++ ['*']), pr.2)
      | none => none
  else if l.head? = some '*' then
    match findClose1 l.tail with
    | some pr => some ('*' :: (pr.1 ++ ['*']), pr.2)
    | none => none
  else none

/-- The split of `re.split` with a capturing group, fuelled: alternating
unmatched and matched parts, markers included, in left-to-right order.
With fuel at least the input length the fuel never runs out. -/
def goSplit : ℕ → List Char → List Char → List (List Char)
  | 0, l, acc => [acc.reverse ++ l]
  | fuel + 1, l, acc =>
    match l with
    | [] => [acc.reverse]
    | c :: rest =>
      match tryMatchStar (c :: rest) with
      | some mr => acc.reverse :: mr.1 :: goSplit fuel mr.2 []
      | none => goSplit fuel rest (c :: acc)

/-- `re.split` of the bold-before-italic pattern over one line. -/
def reSplitStars (l : List Char) : List (List Char) := goSplit l.length l []

/-- Python `startswith` and `endswith` tests used to classify parts. -/
def startsWithStars2 (l : List Char) : Bool :=
  l.head? == some '*' && l.tail.head? == some '*'

/-- Does the part start with a single asterisk. -/
def startsWithStar1 (l : List Char) : Bool :=
  l.head? == some '*'

/-- Classification of one split part, following `_add_formatted_text`:
parts that start and end with two asterisks become bold runs with two
characters cut on both sides, else parts that start and end with one
asterisk become italic runs with one character cut on both sides, else
plain runs. -/
def classifySpan (part : List Char) : Span :=
  if startsWithStars2 part && startsWithStars2 part.reverse then
    ⟨String.mk (((part.drop 2).dropLast).dropLast), .bold⟩
  else if startsWithStar1 part && startsWithStar1 part.reverse then
    ⟨String.mk ((part.drop 1).dropLast), .italic⟩
  else ⟨String.mk part, .plain⟩

/-- `_add_formatted_text` (report_generator.py, lines 95-106): split the
line on the inline pattern and classify every part into a styled run. -/
def addFormattedText (text : List Char) : List Span :=
  (reSplitStars text).map classifySpan

/-- Is the head of the remaining characters a whitespace character. -/
def headIsSpace : List Char → Bool
  | c :: _ => isPySpace c
  | [] => false

/-- The list-item pattern of `generate_chat_transcript` (line 172):
optional leading whitespace, a marker that is an asterisk, hyphen or plus
sign (unordered) or a digit run followed by a dot (ordered), then at
least one whitespace character.  Returns the ordered flag and the text
after the marker and its trailing whitespace run. -/
def listMatch (line : List Char) : Option (Bool × List Char) :=
  if (line.dropWhile isPySpace).head? = some '*' ∨
      (line.dropWhile isPySpace).head? = some '-' ∨
      (line.dropWhile isPySpace).head? = some '+' then
    if headIsSpace (line.dropWhile isPySpace).tail then
      some (false, (line.dropWhile isPySpace).tail.dropWhile isPySpace)
    else none
  else if (line.dropWhile isPySpace).takeWhile Char.isDigit ≠ [] ∧
      ((line.dropWhile isPySpace).dropWhile Char.isDigit).head? = some '.' then
    if headIsSpace ((line.dropWhile isPySpace).dropWhile Char.isDigit).tail then
      some (true, ((line.dropWhile isPySpace).dropWhile Char.isDigit).tail.dropWhile isPySpace)
    else none
  else none

/-- One structural unit of a rendered chat response. -/
inductive Block where
  | paragraph (spans : List Span)
  | listItem (ordered : Bool) (spans : List Span)
  | table (header : List String) (rows : List (List String))
deriving DecidableEq

/-- Is the next line (when there is one) a table separator; the bound
check of `i + 1 < len(response_lines)` in the source. -/
def isSepNext : List (List Char) → Bool
  | next :: _ => isSep next
  | [] => false

/-- The line-scanning loop of `generate_chat_transcript` (lines 137-181),
fuelled: a table block when the current line is a pipe row and the next a
separator (header row, skip the separator, then every immediately
following pipe row), else a list item on a marker match, else a
paragraph; the cursor then resumes after the consumed lines. -/
def renderLinesF : ℕ → List (List Char) → List Block
  | 0, _ => []
  | _ + 1, [] => []
  | fuel + 1, line :: rest =>
    if isTableLine line && isSepNext rest then
      Block.table (parseRow line) ((rest.tail.takeWhile isTableLine).map parseRow)
        :: renderLinesF fuel (rest.tail.dropWhile isTableLine)
    else
      match listMatch line with
      | some p => Block.listItem p.1 (addFormattedText p.2) :: renderLinesF fuel rest
      | none => Block.paragraph (addFormattedText line) :: renderLinesF fuel rest

/-- The render loop with sufficient fuel. -/
def renderLines (lines : List (List Char)) : List Block :=
  renderLinesF lines.length lines

/-- The Markdown rendering pass over one response string. -/
def render (text : String) : List Block :=
  renderLines (pySplitlines text.data)

/-- Word-table serialization of one rendered Markdown table block
(report_generator.py, lines 156-168): a grid with the header's number of
columns in every row; the cell (r, c) of a row is written only when `c`
is below the column count, and cells no row value reaches stay empty. -/
def writeWordTable (tableRows : List (List String)) : List (List String) :=
  match tableRows with
  | [] => []
  | headerRow :: _ =>
    tableRows.map (fun row => (List.range headerRow.length).map (fun c => row.getD c ""))

/-! ## Lemmas about the renderer -/

theorem head_eq_cons {c : Char} {l : List Char} (h : l.head? = some c) : l = c :: l.tail := by
  cases l with
  | nil => simp at h
  | cons a t =>
    simp only [List.head?_cons, Option.some.injEq] at h
    simp [h]

theorem length_dropWhile_le' {α : Type} (p : α → Bool) (l : List α) :
    (l.dropWhile p).length ≤ l.length := by
  induction l with
  | nil => simp
  | cons a t ih =>
    rw [List.dropWhile_cons]
    split
    · simp only [List.length_cons]
      omega
    · exact le_refl _

theorem renderLinesF_nil (f : ℕ) : renderLinesF f [] = [] := by
  cases f <;> rfl

theorem renderLinesF_congr :
    ∀ f g lines, lines.length ≤ f → lines.length ≤ g →
      renderLinesF f lines = renderLinesF g lines := by
  intro f
  induction f with
  | zero =>
    intro g lines hf _
    have h0 : lines = [] := List.length_eq_zero.mp (Nat.le_zero.mp hf)
    subst h0
    rw [renderLinesF_nil, renderLinesF_nil]
  | succ f ih =>
    intro g lines hf hg
    cases lines with
    | nil => rw [renderLinesF_nil, renderLinesF_nil]
    | cons line rest =>
      cases g with
      | zero => simp at hg
      | succ g =>
        simp only [renderLinesF]
        have htail : rest.tail.length ≤ rest.length := by
          rw [List.length_tail]
          omega
        have hdw := length_dropWhile_le' isTableLine rest.tail
        simp only [List.length_cons] at hf hg
        split
        · rw [ih g (rest.tail.dropWhile isTableLine) (by omega) (by omega)]
        · cases hlm : listMatch line with
          | some p => rw [ih g rest (by omega) (by omega)]
          | none => rw [ih g rest (by omega) (by omega)]

theorem renderLines_table (l0 l1 : List Char) (rest : List (List Char))
    (h0 : isTableLine l0 = true) (h1 : isSep l1 = true) :
    renderLines (l0 :: l1 :: rest) =
      Block.table (parseRow l0) ((rest.takeWhile isTableLine).map parseRow)
        :: renderLines (rest.dropWhile isTableLine) := by
  unfold renderLines
  simp only [List.length_cons, renderLinesF]
  rw [if_pos (by simp [h0, isSepNext, h1])]
  simp only [List.tail_cons]
  congr 1
  exact renderLinesF_congr (rest.length + 1) (rest.dropWhile isTableLine).length
    (rest.dropWhile isTableLine)
    (le_trans (length_dropWhile_le' _ _) (by omega)) le_rfl

theorem renderLines_other (line : List Char) (rest : List (List Char))
    (hg : (isTableLine line && isSepNext rest) = false) :
    renderLines (line :: rest) =
      (match listMatch line with
       | some p => Block.listItem p.1 (addFormattedText p.2)
       | none => Block.paragraph (addFormattedText line)) :: renderLines rest := by
  unfold renderLines
  simp only [List.length_cons, renderLinesF]
  rw [if_neg (by simp [hg])]
  cases hlm : listMatch line with
  | some p => rfl
  | none => rfl

theorem findClose2_sound : ∀ l p r, findClose2 l = some (p, r) → l = p ++ '*' :: '*' :: r := by
  intro l
  induction l with
  | nil => intro p r h; simp [findClose2] at h
  | cons c rest ih =>
    intro p r h
    unfold findClose2 at h
    split at h
    · rename_i hc
      simp only [Option.some.injEq, Prod.mk.injEq] at h
      obtain ⟨hp, hr⟩ := h
      subst hp
      subst hr
      rw [hc.1, head_eq_cons hc.2]
      rfl
    · split at h
      · simp at h
      · cases hfc : findClose2 rest with
        | none => rw [hfc] at h; simp at h
        | some pr =>
          rw [hfc] at h
          simp only [Option.map_some', Option.some.injEq, Prod.mk.injEq] at h
          obtain ⟨hp, hr⟩ := h
          subst hp
          subst hr
          rw [List.cons_append]
          rw [← ih pr.1 pr.2 (by rw [hfc])]

theorem findClose1_sound : ∀ l p r, findClose1 l = some (p, r) → l = p ++ '*' :: r := by
  intro l
  induction l with
  | nil => intro p r h; simp [findClose1] at h
  | cons c rest ih =>
    intro p r h
    unfold findClose1 at h
    split at h
    · rename_i hc
      simp only [Option.some.injEq, Prod.mk.injEq] at h
      obtain ⟨hp, hr⟩ := h
      subst hp
      subst hr
      rw [hc]
      rfl
    · split at h
      · simp at h
      · cases hfc : findClose1 rest with
        | none => rw [hfc] at h; simp at h
        | some pr =>
          rw [hfc] at h
          simp only [Option.map_some', Option.some.injEq, Prod.mk.injEq] at h
          obtain ⟨hp, hr⟩ := h
          subst hp
          subst hr
          rw [List.cons_append]
          rw [← ih pr.1 pr.2 (by rw [hfc])]

theorem tryMatchStar_append (l m r : List Char) (h : tryMatchStar l = some (m, r)) :
    l = m ++ r := by
  unfold tryMatchStar at h
  split at h
  · rename_i hc
    have e1 : l = '*' :: l.tail := head_eq_cons hc.1
    have e2 : l.tail = '*' :: l.tail.tail := head_eq_cons hc.2
    cases hfc : findClose2 l.tail.tail with
    | some pr =>
      rw [hfc] at h
      simp only [Option.some.injEq, Prod.mk.injEq] at h
      obtain ⟨hm, hr⟩ := h
      subst hm
      subst hr
      rw [e1, e2, findClose2_sound _ _ _ hfc]
      simp
    | none =>
      rw [hfc] at h
      cases hf1 : findClose1 l.tail with
      | some pr =>
        rw [hf1] at h
        simp only [Option.some.injEq, Prod.mk.injEq] at h
        obtain ⟨hm, hr⟩ := h
        subst hm
        subst hr
        rw [e1, findClose1_sound _ _ _ hf1]
        simp
      | none => rw [hf1] at h; simp at h
  · split at h
    · rename_i hc
      have e1 : l = '*' :: l.tail := head_eq_cons hc
      cases hf1 : findClose1 l.tail with
      | some pr =>
        rw [hf1] at h
        simp only [Option.some.injEq, Prod.mk.injEq] at h
        obtain ⟨hm, hr⟩ := h
        subst hm
        subst hr
        rw [e1, findClose1_sound _ _ _ hf1]
        simp
      | none => rw [hf1] at h; simp at h
    · simp at h

theorem tryMatchStar_two_stars (l m r : List Char) (h : tryMatchStar l = some (m, r)) :
    2 ≤ m.count '*' := by
  unfold tryMatchStar at h
  split at h
  · cases hfc : findClose2 l.tail.tail with
    | some pr =>
      rw [hfc] at h
      simp only [Option.some.injEq, Prod.mk.injEq] at h
      obtain ⟨hm, _⟩ := h
      subst hm
      simp [List.count_cons]
    | none =>
      rw [hfc] at h
      cases hf1 : findClose1 l.tail with
      | some pr =>
        rw [hf1] at h
        simp only [Option.some.injEq, Prod.mk.injEq] at h
        obtain ⟨hm, _⟩ := h
        subst hm
        simp [List.count_cons, List.count_append]
      | none => rw [hf1] at h; simp at h
  · split at h
    · cases hf1 : findClose1 l.tail with
      | some pr =>
        rw [hf1] at h
        simp only [Option.some.injEq, Prod.mk.injEq] at h
        obtain ⟨hm, _⟩ := h
        subst hm
        simp [List.count_cons, List.count_append]
      | none => rw [hf1] at h; simp at h
    · simp at h

theorem goSplit_flatten : ∀ fuel l acc, (goSplit fuel l acc).flatten = acc.reverse ++ l := by
  intro fuel
  induction fuel with
  | zero => intro l acc; simp [goSplit]
  | succ fuel ih =>
    intro l acc
    cases l with
    | nil => simp [goSplit]
    | cons c rest =>
      simp only [goSplit]
      cases htm : tryMatchStar (c :: rest) with
      | some mr =>
        have hsound := tryMatchStar_append _ _ _ htm
        simp only [List.flatten_cons, ih mr.2 []]
        rw [List.reverse_nil, List.nil_append, ← hsound]
      | none =>
        rw [ih rest (c :: acc)]
        simp

theorem goSplit_le_one_star : ∀ fuel l acc, l.count '*' ≤ 1 →
    goSplit fuel l acc = [acc.reverse ++ l] := by
  intro fuel
  induction fuel with
  | zero => intro l acc _; rfl
  | succ fuel ih =>
    intro l acc h
    cases l with
    | nil => simp [goSplit]
    | cons c rest =>
      simp only [goSplit]
      cases htm : tryMatchStar (c :: rest) with
      | some mr =>
        exfalso
        have hsound := tryMatchStar_append _ _ _ htm
        have h2 := tryMatchStar_two_stars _ _ _ htm
        rw [hsound, List.count_append] at h
        omega
      | none =>
        rw [ih rest (c :: acc) (by rw [List.count_cons] at h; omega)]
        simp

theorem findClose2_no_star (s r : List Char) (hs : ∀ c ∈ s, ¬c = '*' ∧ ¬c = '\n') :
    findClose2 (s ++ '*' :: '*' :: r) = some (s, r) := by
  induction s with
  | nil => simp [findClose2]
  | cons c t ih =>
    have hc := hs c (by simp)
    rw [List.cons_append]
    unfold findClose2
    rw [if_neg (fun hh => hc.1 hh.1), if_neg hc.2]
    rw [ih (fun x hx => hs x (by simp [hx]))]
    rfl

theorem tryMatchStar_bold (s : List Char) (hs : ∀ c ∈ s, ¬c = '*' ∧ ¬c = '\n') :
    tryMatchStar ('*' :: '*' :: (s ++ ['*', '*'])) =
      some ('*' :: '*' :: (s ++ ['*', '*']), []) := by
  unfold tryMatchStar
  rw [if_pos ⟨rfl, rfl⟩]
  show (match findClose2 (s ++ '*' :: '*' :: []) with
    | some pr => some ('*' :: '*' :: (pr.1 ++ ['*', '*']), pr.2)
    | none =>
      match findClose1 ('*' :: (s ++ ['*', '*'])) with
      | some pr => some ('*' :: (pr.1 ++ ['*']), pr.2)
      | none => none) = some ('*' :: '*' :: (s ++ ['*', '*']), [])
  rw [findClose2_no_star s [] hs]

theorem dropLast_two_concat (s : List Char) : ((s ++ ['*', '*']).dropLast).dropLast = s := by
  rw [show s ++ ['*', '*'] = (s ++ ['*']) ++ ['*'] by simp]
  rw [List.dropLast_concat, List.dropLast_concat]

theorem classifySpan_bold (s : List Char) :
    classifySpan ('*' :: '*' :: (s ++ ['*', '*'])) = ⟨String.mk s, .bold⟩ := by
  have hrev : ('*' :: '*' :: (s ++ ['*', '*'])).reverse =
      '*' :: '*' :: (s.reverse ++ ['*', '*']) := by
    simp
  unfold classifySpan
  rw [if_pos (by rw [hrev]; rfl)]
  have hdrop : (('*' :: '*' :: (s ++ ['*', '*'])).drop 2) = s ++ ['*', '*'] := rfl
  rw [hdrop, dropLast_two_concat]

theorem classifySpan_nil : classifySpan [] = ⟨"", .plain⟩ := rfl

theorem goSplit_succ_cons (fuel : ℕ) (c : Char) (rest acc : List Char) :
    goSplit (fuel + 1) (c :: rest) acc =
      match tryMatchStar (c :: rest) with
      | some mr => acc.reverse :: mr.1 :: goSplit fuel mr.2 []
      | none => goSplit fuel rest (c :: acc) := rfl

theorem goSplit_succ_nil (fuel : ℕ) (acc : List Char) :
    goSplit (fuel + 1) [] acc = [acc.reverse] := rfl

theorem addFormattedText_bold (s : List Char) (hs : ∀ c ∈ s, ¬c = '*' ∧ ¬c = '\n') :
    addFormattedText ('*' :: '*' :: (s ++ ['*', '*'])) =
      [⟨"", .plain⟩, ⟨String.mk s, .bold⟩, ⟨"", .plain⟩] := by
  unfold addFormattedText reSplitStars
  rw [show ('*' :: '*' :: (s ++ ['*', '*'])).length = (s.length + 3) + 1 by
    simp [List.length_append]]
  rw [goSplit_succ_cons, tryMatchStar_bold s hs]
  show List.map classifySpan
    ([].reverse :: ('*' :: '*' :: (s ++ ['*', '*'])) :: goSplit (s.length + 3) [] []) = _
  rw [show s.length + 3 = (s.length + 2) + 1 from rfl, goSplit_succ_nil]
  simp only [List.reverse_nil, List.map_cons, List.map_nil, classifySpan_bold, classifySpan_nil]

theorem classifySpan_single_star (l : List Char) (h1 : l.count '*' = 1) (h2 : 2 ≤ l.length) :
    classifySpan l = ⟨String.mk l, .plain⟩ := by
  have hA : ¬((startsWithStars2 l && startsWithStars2 l.reverse) = true) := by
    intro hcond
    rw [Bool.and_eq_true] at hcond
    obtain ⟨ha, _⟩ := hcond
    rw [startsWithStars2, Bool.and_eq_true] at ha
    obtain ⟨ha1, ha2⟩ := ha
    rw [beq_iff_eq] at ha1 ha2
    have e1 : l = '*' :: l.tail := head_eq_cons ha1
    have e2 : l.tail = '*' :: l.tail.tail := head_eq_cons ha2
    have hcount : l.count '*' = l.tail.tail.count '*' + 2 := by
      conv_lhs => rw [e1, e2]
      simp [List.count_cons]
    omega
  have hB : ¬((startsWithStar1 l && startsWithStar1 l.reverse) = true) := by
    intro hcond
    rw [Bool.and_eq_true] at hcond
    obtain ⟨ha, hb⟩ := hcond
    rw [startsWithStar1, beq_iff_eq] at ha hb
    have e1 : l = '*' :: l.tail := head_eq_cons ha
    have e2 : l.reverse = '*' :: l.reverse.tail := head_eq_cons hb
    have e3 : l = l.reverse.tail.reverse ++ ['*'] := by
      have h4 := congrArg List.reverse e2
      simpa using h4
    cases hrt : l.reverse.tail.reverse with
    | nil =>
      rw [hrt] at e3
      simp only [List.nil_append] at e3
      rw [e3] at h2
      simp at h2
    | cons x xs =>
      rw [hrt] at e3
      have h5 : x :: (xs ++ ['*']) = '*' :: l.tail := by
        rw [← List.cons_append, ← e3]
        exact e1
      have hx : x = '*' := by
        injection h5
      subst hx
      have hc : 2 ≤ l.count '*' := by
        rw [e3]
        simp [List.count_append, List.count_cons]
      omega
  unfold classifySpan
  rw [if_neg hA, if_neg hB]

theorem getD_nil_str (c : ℕ) (d : String) : ([] : List String).getD c d = d := rfl

theorem range_map_getD (n : ℕ) (row : List String) :
    (List.range n).map (fun c => row.getD c "") =
      row.take n ++ List.replicate (n - row.length) "" := by
  induction n generalizing row with
  | zero => simp
  | succ n ih =>
    rw [List.range_succ_eq_map, List.map_cons, List.map_map]
    cases row with
    | nil =>
      simp only [getD_nil_str, List.take_nil, List.nil_append, List.length_nil, Nat.sub_zero]
      simp [Function.comp_def, List.replicate_succ]
    | cons a t =>
      have hmap : (List.range n).map ((fun c => (a :: t).getD c "") ∘ Nat.succ) =
          (List.range n).map (fun c => t.getD c "") := by
        apply List.map_congr_left
        intro x _
        simp [List.getD_cons_succ]
      rw [hmap, ih]
      simp [List.getD_cons_zero, List.take_succ_cons]

/-! ## Claims about the renderer -/

/-- C4: for every position, when the current line is a pipe-delimited row
and the next line a valid separator row, render emits exactly one table
block whose header is the parsed current line and whose rows are all
immediately following pipe rows, resuming right after the table; and the
concrete header-separator-data-blank input yields one table block then
one paragraph block. -/
theorem render_table_detection :
    (∀ l0 l1 rest, isTableLine l0 = true → isSep l1 = true →
      renderLines (l0 :: l1 :: rest) =
        Block.table (parseRow l0) ((rest.takeWhile isTableLine).map parseRow)
          :: renderLines (rest.dropWhile isTableLine)) ∧
    render "|A|B|\n|---|---|\n|1|2|\n\n" =
      [Block.table ["A", "B"] [["1", "2"]], Block.paragraph [⟨"", .plain⟩]] :=
  ⟨fun l0 l1 rest h0 h1 => renderLines_table l0 l1 rest h0 h1, rfl⟩

theorem render_table_detection_witness :
    isTableLine "|H|".data = true ∧ isSep "|-|".data = true ∧
    renderLines ["|H|".data, "|-|".data] =
      Block.table (parseRow "|H|".data)
        ((([] : List (List Char)).takeWhile isTableLine).map parseRow)
        :: renderLines (([] : List (List Char)).dropWhile isTableLine) :=
  ⟨rfl, rfl, render_table_detection.1 "|H|".data "|-|".data [] rfl rfl⟩

/-- C5 counterexample: for the line of a bold word, such as the input made
of two asterisks, an x and two asterisks, the produced spans concatenate
to the bare x, not to the original line: the matched delimiter characters
are cut from the runs, so span concatenation with styling ignored does
not reconstruct the line. -/
theorem spans_concat_counterexample :
    String.join ((addFormattedText "**x**".data).map Span.text) = "x" ∧
    ("x" : String) ≠ "**x**" :=
  ⟨rfl, by decide⟩

/-- C5 amended: bold is tried before italic, so a line made of a doubled
asterisk pair around asterisk-free text parses as one bold span and is
never matched as italic; the split parts appear in left-to-right order
and, with markers included, concatenate back to the original line (the
spans' texts concatenate to the line with the matched markers removed);
the spec's mixed example line splits into the expected styled spans. -/
theorem inline_span_split_spec :
    (∀ s : List Char, (∀ c ∈ s, ¬c = '*' ∧ ¬c = '\n') →
      addFormattedText ('*' :: '*' :: (s ++ ['*', '*'])) =
        [⟨"", .plain⟩, ⟨String.mk s, .bold⟩, ⟨"", .plain⟩]) ∧
    (∀ l : List Char, (reSplitStars l).flatten = l) ∧
    addFormattedText "**bold** and *italic* and plain".data =
      [⟨"", .plain⟩, ⟨"bold", .bold⟩, ⟨" and ", .plain⟩, ⟨"italic", .italic⟩,
       ⟨" and plain", .plain⟩] := by
  refine ⟨addFormattedText_bold, ?_, rfl⟩
  intro l
  have h := goSplit_flatten l.length l []
  simpa using h

theorem inline_span_split_spec_witness :
    (∀ c ∈ "x".data, ¬c = '*' ∧ ¬c = '\n') ∧
    addFormattedText ('*' :: '*' :: ("x".data ++ ['*', '*'])) =
      [⟨"", .plain⟩, ⟨String.mk "x".data, .bold⟩, ⟨"", .plain⟩] :=
  ⟨by decide, inline_span_split_spec.1 "x".data (by decide)⟩

/-- C6: for every line not consumed by table detection whose text matches
the list-marker pattern, render emits one list-item block with the
ordered flag from the marker kind and the text after the marker and its
whitespace; the concrete two-bullet input yields exactly two unordered
list items. -/
theorem render_list_items :
    (∀ line rest p, (isTableLine line && isSepNext rest) = false →
      listMatch line = some p →
      renderLines (line :: rest) =
        Block.listItem p.1 (addFormattedText p.2) :: renderLines rest) ∧
    render "* item one\n* item two" =
      [Block.listItem false [⟨"item one", .plain⟩],
       Block.listItem false [⟨"item two", .plain⟩]] := by
  constructor
  · intro line rest p hg hm
    rw [renderLines_other line rest hg, hm]
  · rfl

theorem render_list_items_witness :
    (isTableLine "* a".data && isSepNext []) = false ∧
    listMatch "* a".data = some (false, "a".data) ∧
    renderLines ["* a".data] =
      Block.listItem false (addFormattedText "a".data) :: renderLines [] :=
  ⟨rfl, rfl, render_list_items.1 "* a".data [] (false, "a".data) rfl rfl⟩

/-- C7 counterexample: in the line made of a doubled asterisk followed by
the letters abc, the unmatched doubled asterisk is consumed as an empty
bold span (matched by the italic alternative with empty content, then
classified as bold), so the delimiter characters appear in no plain span
of the output. -/
theorem unmatched_double_star_not_literal :
    addFormattedText "**abc".data =
      [⟨"", .plain⟩, ⟨"", .bold⟩, ⟨"abc", .plain⟩] := rfl

/-- C7 amended: inline-span parsing is total, and a line containing
exactly one asterisk and at least two characters degrades to a single
literal plain span equal to the whole line, the asterisk appearing in
that plain text; an unmatched doubled asterisk is instead consumed as an
empty bold span. -/
theorem inline_spans_single_star :
    ∀ l : List Char, l.count '*' = 1 → 2 ≤ l.length →
      addFormattedText l = [⟨String.mk l, .plain⟩] ∧ '*' ∈ l := by
  intro l h1 h2
  constructor
  · unfold addFormattedText reSplitStars
    rw [goSplit_le_one_star l.length l [] (by omega)]
    simp [classifySpan_single_star l h1 h2]
  · exact List.count_pos_iff.mp (by omega)

theorem inline_spans_single_star_witness :
    ("*abc".data.count '*' = 1) ∧ (2 ≤ "*abc".data.length) ∧
    (addFormattedText "*abc".data = [⟨String.mk "*abc".data, .plain⟩] ∧
      '*' ∈ "*abc".data) :=
  ⟨by decide, by decide, inline_spans_single_star "*abc".data (by decide) (by decide)⟩

/-- C8: both components are total: render yields a block sequence for
every string, and the cell cleaner and table normalizer yield a result
for every JSON-shaped value; in the embedding all three are total
functions, the renderer's fuel never running out and the only fallible
step, the float parse, being handled by the fallback branch. -/
theorem components_total :
    (∀ s : String, ∃ bs, render s = bs) ∧
    (∀ v : PyVal, ∃ r, normalizeTable v = r) ∧
    (∀ v : PyVal, ∃ r, cleanCell v = r) :=
  ⟨fun s => ⟨render s, rfl⟩, fun v => ⟨normalizeTable v, rfl⟩, fun v => ⟨cleanCell v, rfl⟩⟩

/-- C9: determinism: render and the table normalizer are pure functions
of their input in the embedding, so two runs on the same input are
identical; no randomness or clock appears in any definition they use. -/
theorem components_deterministic :
    (∀ s : String, render s = render s) ∧
    (∀ v : PyVal, normalizeTable v = normalizeTable v) :=
  ⟨fun _ => rfl, fun _ => rfl⟩

/-- C10: rendered table rows are not width-normalized in the block; at
serialization each grid row gets exactly the header's number of columns,
excess cells of long rows being discarded and missing cells of short rows
staying empty; concretely a three-cell data row under a two-cell header
is stored whole in the block and written back as its first two cells. -/
theorem word_table_truncation :
    (∀ header rows, writeWordTable (header :: rows) =
      (header :: rows).map (fun row =>
        row.take header.length ++ List.replicate (header.length - row.length) "")) ∧
    render "|a|b|\n|-|-|\n|1|2|3|" = [Block.table ["a", "b"] [["1", "2", "3"]]] ∧
    writeWordTable [["a", "b"], ["1", "2", "3"]] = [["a", "b"], ["1", "2"]] := by
  refine ⟨?_, rfl, rfl⟩
  intro header rows
  unfold writeWordTable
  exact List.map_congr_left fun row _ => range_map_getD header.length row
